import Mathlib

/-!
Shallow embedding of the CaLiForce core (files `CaLiForce/frequency_summation.py`
and `CaLiForce/interaction.py`) over exact real arithmetic, together with proofs
settling the specification claims about the summation engines, the order
heuristic, and the radial integrands.

Modelling conventions.
* Python floats are modelled as real numbers; `numpy` elementwise arithmetic on
  the 2-vectors becomes componentwise arithmetic on `ℝ × ℝ`.
* `math.sqrt` and `math.log1p` raise (`TypeError` on complex input,
  `ValueError` outside the real domain); they are embedded as `Option`-valued
  functions (`mathSqrt`, `mathLog1p`).  Likewise a float division whose
  denominator is exactly zero raises `ZeroDivisionError` and is embedded as
  `pyDiv`.
* In `msd_sum` with `nmax` unsupplied, the stopping test
  `if abs(term / np.sum(res)) < epsrel:` compares a 2-element array with a
  scalar and then asks for the truth value of the resulting 2-element boolean
  array; `numpy` raises `ValueError` (ambiguous truth value) there, on the very
  first iteration, for every vector-valued `func`.  The embedding records this
  outcome as `MsdOutcome.valueError n res`, carrying the loop index and the
  accumulator at the moment of the raise.
-/

namespace CaLiForce

/-- Boltzmann constant, `scipy.constants.k` (exact SI value). -/
noncomputable def kB : ℝ := 1.380649e-23

/-- Speed of light, `scipy.constants.c` (exact SI value). -/
noncomputable def c_light : ℝ := 299792458

/-- Reduced Planck constant, `scipy.constants.hbar = h / (2*pi)` with the exact
SI value of `h`. -/
noncomputable def hbar : ℝ := 6.62607015e-34 / (2 * Real.pi)

/-- Fundamental Matsubara wave-number scale,
`K_matsubara = 2 * np.pi * k * T / (hbar * c)` as computed at the top of both
`psd_sum` and `msd_sum`. -/
noncomputable def K_matsubara (T : ℝ) : ℝ := 2 * Real.pi * kB * T / (hbar * c_light)

/-- Outcome of a call to `msd_sum`: either a returned 2-vector, or the `numpy`
`ValueError` raised when the truth value of the 2-element comparison array in
the stopping test is requested.  The error records the loop index `n` at which
the raise happened and the accumulator `res` at that moment (the term of index
`n` has already been added, since `res += 2 * term` precedes the test). -/
inductive MsdOutcome (β : Type) where
  | ok : β → MsdOutcome β
  | valueError : ℕ → β → MsdOutcome β
  deriving DecidableEq

/-- Map a function over the payload of an `MsdOutcome`. -/
def MsdOutcome.map {β γ : Type} (f : β → γ) : MsdOutcome β → MsdOutcome γ
  | .ok b => .ok (f b)
  | .valueError n b => .valueError n (f b)

/-- Body of the `while` loop of `msd_sum` in the branch where `nmax` was
supplied as a finite integer: there the inner test `if nmax == np.inf:` is
false, so the loop just accumulates `res += 2 * func(K_matsubara * n)` for the
remaining iterations.  `m` counts the iterations still to run, `n` is the
current loop index. -/
noncomputable def msd_loop (Km : ℝ) (func : ℝ → ℝ × ℝ) : ℕ → ℕ → ℝ × ℝ → ℝ × ℝ
  | 0, _, res => res
  | m + 1, n, res =>
      let term := func (Km * n)
      msd_loop Km func m (n + 1) (res.1 + 2 * term.1, res.2 + 2 * term.2)

/-- Embedding of `msd_sum(T, L, func, epsrel, nmax)` from
`CaLiForce/frequency_summation.py` (lines 37-71).

With `nmax` a finite integer `m`, the loop runs `n = 1 .. m` and the function
returns `0.5 * k * T * res`.

With `nmax` unsupplied (`None`, replaced by `np.inf`), the first iteration
computes `term = func(K_matsubara * 1)`, accumulates `res += 2 * term`, and
then reaches `if abs(term / np.sum(res)) < epsrel:`.  For a vector-valued
`func` the comparison produces a 2-element boolean array and its truth value is
ambiguous, so `numpy` raises `ValueError` regardless of the values of `term`,
`res` and `epsrel`; the call never returns.  Note `L` is accepted but unused,
exactly as in the source. -/
noncomputable def msd_sum (T L : ℝ) (func : ℝ → ℝ × ℝ) (epsrel : ℝ)
    (nmax : Option ℕ) : MsdOutcome (ℝ × ℝ) :=
  let Km := K_matsubara T
  match nmax with
  | some m =>
      let res := msd_loop Km func m 1 (0, 0)
      .ok (0.5 * kB * T * res.1, 0.5 * kB * T * res.2)
  | none =>
      let term := func (Km * 1)
      .valueError 1 (0 + 2 * term.1, 0 + 2 * term.2)

/-- List of the arguments at which the loop of `msd_sum` evaluates `func`,
mirroring `msd_loop`. -/
noncomputable def msd_calls_loop (Km : ℝ) : ℕ → ℕ → List ℝ
  | 0, _ => []
  | m + 1, n => (Km * n) :: msd_calls_loop Km m (n + 1)

/-- Arguments at which `msd_sum` evaluates `func`: for finite `nmax = m` these
are `K_matsubara * n` for `n = 1 .. m`; with `nmax` unsupplied the single
evaluation at `K_matsubara * 1` happens before the stopping test raises. -/
noncomputable def msd_calls (T : ℝ) (nmax : Option ℕ) : List ℝ :=
  match nmax with
  | some m => msd_calls_loop (K_matsubara T) m 1
  | none => [K_matsubara T * 1]

/-- Truncation order computed by `psd_sum` when `order` is not supplied:
`int(max(np.ceil((1 - 1.5 * np.log10(np.abs(epsrel))) / np.sqrt(Teff)), 5))`
with `Teff = 4 * np.pi * k / hbar / c * T * L`.  `np.ceil` yields an integral
value and the `max` with `5` makes the result at least `5`, so the final
`int(...)` conversion is exact and the whole expression is the integer
`max(ceil(...), 5)`. -/
noncomputable def psd_order (T L epsrel : ℝ) : ℤ :=
  max ⌈(1 - 1.5 * Real.logb 10 |epsrel|) /
        Real.sqrt (4 * Real.pi * kB / hbar / c_light * T * L)⌉ 5

/-- Loop of `psd_sum`: `for n in range(order): res += 2 * eta[n] * func(K_matsubara * xi[n]/2/np.pi)`.
The node set is represented by its entry functions `xi eta : ℕ → ℕ → ℝ`
evaluated at the indices `0 .. order-1` (the external generator guarantees
both sequences have length `order`).  `m` counts the remaining iterations and
`n` is the current index. -/
noncomputable def psd_loop (Km : ℝ) (func : ℝ → ℝ × ℝ) (xi eta : ℕ → ℝ) :
    ℕ → ℕ → ℝ × ℝ → ℝ × ℝ
  | 0, _, res => res
  | m + 1, n, res =>
      let term := func (Km * xi n / 2 / Real.pi)
      psd_loop Km func xi eta m (n + 1)
        (res.1 + 2 * eta n * term.1, res.2 + 2 * eta n * term.2)

/-- Embedding of `psd_sum(T, L, func, epsrel, order)` from
`CaLiForce/frequency_summation.py` (lines 5-34).  The external node generator
`psd` (imported from `CaLiForce/psd.py`, outside the specified core and treated
by the spec as an opaque collaborator) is passed explicitly as `psdGen`, which
for a requested order returns the abscissa and weight sequences `(xi, eta)`. -/
noncomputable def psd_sum (psdGen : ℕ → (ℕ → ℝ) × (ℕ → ℝ)) (T L : ℝ)
    (func : ℝ → ℝ × ℝ) (epsrel : ℝ) (order : Option ℕ) : ℝ × ℝ :=
  let Km := K_matsubara T
  let ord : ℕ :=
    match order with
    | some o => o
    | none => (psd_order T L epsrel).toNat
  let xi := (psdGen ord).1
  let eta := (psdGen ord).2
  let res := psd_loop Km func xi eta ord 0 (0, 0)
  (0.5 * kB * T * res.1, 0.5 * kB * T * res.2)

/-- List of the arguments at which the loop of `psd_sum` evaluates `func`,
mirroring `psd_loop`. -/
noncomputable def psd_calls_loop (Km : ℝ) (xi : ℕ → ℝ) : ℕ → ℕ → List ℝ
  | 0, _ => []
  | m + 1, n => (Km * xi n / 2 / Real.pi) :: psd_calls_loop Km xi m (n + 1)

/-- Arguments at which `psd_sum` evaluates `func`, one per loop iteration. -/
noncomputable def psd_calls (psdGen : ℕ → (ℕ → ℝ) × (ℕ → ℝ)) (T L epsrel : ℝ)
    (order : Option ℕ) : List ℝ :=
  let ord : ℕ :=
    match order with
    | some o => o
    | none => (psd_order T L epsrel).toNat
  psd_calls_loop (K_matsubara T) (psdGen ord).1 ord 0

/-- Embedding of the `math.sqrt` call used by the radial integrands
(`from math import sqrt` in `CaLiForce/interaction.py`).  The argument slot may
receive a complex permittivity, so the radicand type is `ℂ`.  `math.sqrt`
raises `TypeError` whenever its argument is complex-typed in Python
(regardless of its value; even `complex(1, 0)` cannot be converted to
`float`), raises `ValueError` on a negative float, and returns the principal
real square root of a nonnegative float.  Both raising outcomes are modelled
as `none`.

This is a value-level embedding: a Python float is represented as a complex
number of zero imaginary part, and the guard here accepts exactly the
nonnegative real-valued radicands.  The Python-side distinction it cannot see
is a complex-typed `epsm` whose radicand happens to have a real value (this
occurs at `k0 = 0`, where `epsm * k0**2 + k**2` is the complex-typed
`k**2 + 0j` and the code still raises `TypeError`).  Fidelity is therefore
maintained at the theorem level: every theorem asserting that an integrand
returns a value carries the float-permittivity hypothesis `epsm.im = 0` (under
which the radicand is float-typed in Python and this guard is exact), and
every theorem exhibiting a failure instantiates a radicand that is itself
non-real, where the code certainly raises. -/
noncomputable def mathSqrt (z : ℂ) : Option ℝ :=
  if z.im = 0 ∧ 0 ≤ z.re then some (Real.sqrt z.re) else none

/-- Embedding of `math.log1p`: returns `log(1 + x)` for `x > -1` and raises
`ValueError` (modelled as `none`) otherwise. -/
noncomputable def mathLog1p (x : ℝ) : Option ℝ :=
  if -1 < x then some (Real.log (1 + x)) else none

/-- Python float division: raises `ZeroDivisionError` (modelled as `none`)
when the denominator is exactly zero. -/
noncomputable def pyDiv (a b : ℝ) : Option ℝ :=
  if b = 0 then none else some (a / b)

/-- Embedding of `k_integrand_energy(k, k0, d, epsm, rL, rR)` from
`CaLiForce/interaction.py` (lines 6-33).  The reflection functions return the
pair `(rTM, rTE)`; the polarization results are
`res_TE = k / 2 / pi * log1p(- rTE_L * rTE_R * exp(-2 * kappa * d))` and the
analogue for TM, computed in that order (a raise while computing `res_TE`
prevents `res_TM` from being computed), and the returned pair is
`(res_TE, res_TM)`. -/
noncomputable def k_integrand_energy (k k0 d : ℝ) (epsm : ℂ)
    (rL rR : ℝ → ℝ → ℝ × ℝ) : Option (ℝ × ℝ) :=
  (mathSqrt (epsm * (k0 : ℂ) ^ 2 + (k : ℂ) ^ 2)).bind fun kappa =>
    (mathLog1p (-((rL k0 k).2 * (rR k0 k).2 * Real.exp (-2 * kappa * d)))).bind
      fun logTE =>
        (mathLog1p (-((rL k0 k).1 * (rR k0 k).1 * Real.exp (-2 * kappa * d)))).bind
          fun logTM =>
            some (k / 2 / Real.pi * logTE, k / 2 / Real.pi * logTM)

/-- Embedding of `k_integrand_pressure(k, k0, d, epsm, rL, rR)` from
`CaLiForce/interaction.py` (lines 61-88):
`res_TE = -2 * k * kappa / 2 / pi * rTE_L * rTE_R * exp(-2*kappa*d) / (1 - rTE_L * rTE_R * exp(-2*kappa*d))`
and the TM analogue, returned as `(res_TE, res_TM)`. -/
noncomputable def k_integrand_pressure (k k0 d : ℝ) (epsm : ℂ)
    (rL rR : ℝ → ℝ → ℝ × ℝ) : Option (ℝ × ℝ) :=
  (mathSqrt (epsm * (k0 : ℂ) ^ 2 + (k : ℂ) ^ 2)).bind fun kappa =>
    (pyDiv (-2 * k * kappa / 2 / Real.pi * (rL k0 k).2 * (rR k0 k).2 *
              Real.exp (-2 * kappa * d))
           (1 - (rL k0 k).2 * (rR k0 k).2 * Real.exp (-2 * kappa * d))).bind
      fun pTE =>
        (pyDiv (-2 * k * kappa / 2 / Real.pi * (rL k0 k).1 * (rR k0 k).1 *
                  Real.exp (-2 * kappa * d))
               (1 - (rL k0 k).1 * (rR k0 k).1 * Real.exp (-2 * kappa * d))).bind
          fun pTM => some (pTE, pTM)

/-- Embedding of `k_integrand_pressuregradient(k, k0, d, epsm, rL, rR)` from
`CaLiForce/interaction.py` (lines 116-142):
`res_TE = 4 * k * kappa**2 / 2 / pi * rTE_L * rTE_R * exp(-2*kappa*d) / (1 - rTE_L * rTE_R * exp(-2*kappa*d))**2`
and the TM analogue, returned as `(res_TE, res_TM)`. -/
noncomputable def k_integrand_pressuregradient (k k0 d : ℝ) (epsm : ℂ)
    (rL rR : ℝ → ℝ → ℝ × ℝ) : Option (ℝ × ℝ) :=
  (mathSqrt (epsm * (k0 : ℂ) ^ 2 + (k : ℂ) ^ 2)).bind fun kappa =>
    (pyDiv (4 * k * kappa ^ 2 / 2 / Real.pi * (rL k0 k).2 * (rR k0 k).2 *
              Real.exp (-2 * kappa * d))
           ((1 - (rL k0 k).2 * (rR k0 k).2 * Real.exp (-2 * kappa * d)) ^ 2)).bind
      fun gTE =>
        (pyDiv (4 * k * kappa ^ 2 / 2 / Real.pi * (rL k0 k).1 * (rR k0 k).1 *
                  Real.exp (-2 * kappa * d))
               ((1 - (rL k0 k).1 * (rR k0 k).1 * Real.exp (-2 * kappa * d)) ^ 2)).bind
          fun gTM => some (gTE, gTM)

/-- Reflection function returning the constant pair `(0.5, 0.5)`, used by the
log1p stability scenario of the spec. -/
noncomputable def rHalf : ℝ → ℝ → ℝ × ℝ := fun _ _ => (0.5, 0.5)

/-- Reflection function returning the constant pair `(0.9, 0.9)`, used by the
pressure and pressure-gradient sign scenario of the spec. -/
noncomputable def r09 : ℝ → ℝ → ℝ × ℝ := fun _ _ => (0.9, 0.9)

/-- Reflection function with `rTM = 0.5` and `rTE = 2`; it agrees with `rB0`
in the TM amplitude and differs from it only in the TE amplitude. -/
noncomputable def rA2 : ℝ → ℝ → ℝ × ℝ := fun _ _ => (0.5, 2)

/-- Reflection function with `rTM = 0.5` and `rTE = 0`; it agrees with `rA2`
in the TM amplitude and differs from it only in the TE amplitude. -/
noncomputable def rB0 : ℝ → ℝ → ℝ × ℝ := fun _ _ => (0.5, 0)

/-- Geometrically decaying summand of the termination scenario: at the sampled
frequency `K_matsubara T * n` it takes the value `(r ^ n, r ^ n)` (real
exponentiation of the scaled argument, so that the scenario `func(n) = [r^n, r^n]`
of the spec is realised along the sampling grid). -/
noncomputable def funcGeo (T r : ℝ) : ℝ → ℝ × ℝ := fun x =>
  (r ^ (x / K_matsubara T), r ^ (x / K_matsubara T))

lemma kB_pos : 0 < kB := by norm_num [kB]

lemma hbar_pos : 0 < hbar := by
  have h2 : 0 < 2 * Real.pi := by positivity
  exact div_pos (by norm_num) h2

lemma c_light_pos : 0 < c_light := by norm_num [c_light]

lemma K_matsubara_pos {T : ℝ} (hT : 0 < T) : 0 < K_matsubara T := by
  have hnum : 0 < 2 * Real.pi * kB * T :=
    mul_pos (mul_pos (mul_pos two_pos Real.pi_pos) kB_pos) hT
  exact div_pos hnum (mul_pos hbar_pos c_light_pos)

lemma K_matsubara_ne_zero {T : ℝ} (hT : 0 < T) : K_matsubara T ≠ 0 :=
  (K_matsubara_pos hT).ne'

lemma msd_loop_eq (Km : ℝ) (func : ℝ → ℝ × ℝ) :
    ∀ (m n : ℕ) (a b : ℝ),
      msd_loop Km func m n (a, b) =
        (a + ∑ i ∈ Finset.range m, 2 * (func (Km * (n + i : ℕ))).1,
         b + ∑ i ∈ Finset.range m, 2 * (func (Km * (n + i : ℕ))).2) := by
  intro m
  induction m with
  | zero => intro n a b; simp [msd_loop]
  | succ m ih =>
      intro n a b
      rw [msd_loop, ih]
      have hswap : ∀ i : ℕ, n + 1 + i = n + (i + 1) := fun i => by omega
      simp only [Prod.mk.injEq, Finset.sum_range_succ', Nat.add_zero, hswap]
      constructor <;> ring

lemma msd_calls_loop_eq (Km : ℝ) :
    ∀ m n : ℕ, msd_calls_loop Km m n =
      (List.range m).map fun i => Km * ((n + i : ℕ) : ℝ) := by
  intro m
  induction m with
  | zero => intro n; simp [msd_calls_loop]
  | succ m ih =>
      intro n
      rw [msd_calls_loop, ih, List.range_succ_eq_map]
      simp only [List.map_cons, List.map_map, Nat.add_zero]
      congr 1
      apply List.map_congr_left
      intro i _
      simp only [Function.comp_apply, Nat.succ_eq_add_one]
      push_cast
      ring

lemma psd_loop_eq (Km : ℝ) (func : ℝ → ℝ × ℝ) (xi eta : ℕ → ℝ) :
    ∀ (m n : ℕ) (a b : ℝ),
      psd_loop Km func xi eta m n (a, b) =
        (a + ∑ i ∈ Finset.range m,
              2 * eta (n + i) * (func (Km * xi (n + i) / 2 / Real.pi)).1,
         b + ∑ i ∈ Finset.range m,
              2 * eta (n + i) * (func (Km * xi (n + i) / 2 / Real.pi)).2) := by
  intro m
  induction m with
  | zero => intro n a b; simp [psd_loop]
  | succ m ih =>
      intro n a b
      rw [psd_loop, ih]
      have hswap : ∀ i : ℕ, n + 1 + i = n + (i + 1) := fun i => by omega
      simp only [Prod.mk.injEq, Finset.sum_range_succ', Nat.add_zero, hswap]
      constructor <;> ring

lemma psd_calls_loop_length (Km : ℝ) (xi : ℕ → ℝ) :
    ∀ m n : ℕ, (psd_calls_loop Km xi m n).length = m := by
  intro m
  induction m with
  | zero => intro n; simp [psd_calls_loop]
  | succ m ih => intro n; simp [psd_calls_loop, ih]

lemma mathSqrt_eq_some {z : ℂ} (him : z.im = 0) (hre : 0 ≤ z.re) :
    mathSqrt z = some (Real.sqrt z.re) := by
  simp [mathSqrt, him, hre]

lemma mathLog1p_eq_some {x : ℝ} (h : -1 < x) :
    mathLog1p x = some (Real.log (1 + x)) := by
  simp [mathLog1p, h]

lemma pyDiv_eq_some {a b : ℝ} (h : b ≠ 0) : pyDiv a b = some (a / b) := by
  simp [pyDiv, h]

lemma exp_le_one_of_nonpos {y : ℝ} (hy : y ≤ 0) : Real.exp y ≤ 1 := by
  calc Real.exp y ≤ Real.exp 0 := Real.exp_le_exp.mpr hy
    _ = 1 := Real.exp_zero

lemma radicand_im_eq_zero {epsm : ℂ} (k0 k : ℝ) (hepsm : epsm.im = 0) :
    (epsm * (k0 : ℂ) ^ 2 + (k : ℂ) ^ 2).im = 0 := by
  have h0 : ((k0 : ℂ) ^ 2).im = 0 := by
    rw [sq]
    simp [Complex.mul_im]
  have h1 : ((k : ℂ) ^ 2).im = 0 := by
    rw [sq]
    simp [Complex.mul_im]
  simp [Complex.add_im, Complex.mul_im, hepsm, h0, h1]

lemma mathSqrt_radicand_01 :
    mathSqrt ((1 : ℂ) * ((0 : ℝ) : ℂ) ^ 2 + ((1 : ℝ) : ℂ) ^ 2) = some 1 := by
  have hre1 : ((1 : ℂ) * ((0 : ℝ) : ℂ) ^ 2 + ((1 : ℝ) : ℂ) ^ 2).re = 1 := by simp
  have him1 : ((1 : ℂ) * ((0 : ℝ) : ℂ) ^ 2 + ((1 : ℝ) : ℂ) ^ 2).im = 0 := by simp
  rw [mathSqrt_eq_some him1 (by rw [hre1]; norm_num), hre1, Real.sqrt_one]

lemma energy_TM_unaffected_by_TE (k k0 d : ℝ) (epsm : ℂ)
    (rL rL' rR rR' : ℝ → ℝ → ℝ × ℝ)
    (hL : (rL k0 k).1 = (rL' k0 k).1) (hR : (rR k0 k).1 = (rR' k0 k).1)
    (hA : (k_integrand_energy k k0 d epsm rL rR).isSome = true)
    (hB : (k_integrand_energy k k0 d epsm rL' rR').isSome = true) :
    (k_integrand_energy k k0 d epsm rL rR).map Prod.snd =
      (k_integrand_energy k k0 d epsm rL' rR').map Prod.snd := by
  simp only [k_integrand_energy] at hA hB ⊢
  cases hsq : mathSqrt (epsm * (k0 : ℂ) ^ 2 + (k : ℂ) ^ 2) with
  | none => rw [hsq] at hA; simp at hA
  | some κ =>
      simp only [hsq, Option.some_bind] at hA hB ⊢
      cases hTEA : mathLog1p (-((rL k0 k).2 * (rR k0 k).2 * Real.exp (-2 * κ * d))) with
      | none => rw [hTEA] at hA; simp at hA
      | some lA =>
          cases hTEB : mathLog1p (-((rL' k0 k).2 * (rR' k0 k).2 * Real.exp (-2 * κ * d))) with
          | none => rw [hTEB] at hB; simp at hB
          | some lB =>
              simp only [hTEA, hTEB, Option.some_bind]
              rw [hL, hR]
              cases hTM : mathLog1p (-((rL' k0 k).1 * (rR' k0 k).1 * Real.exp (-2 * κ * d))) with
              | none => simp
              | some lTM => simp

lemma pressure_TM_unaffected_by_TE (k k0 d : ℝ) (epsm : ℂ)
    (rL rL' rR rR' : ℝ → ℝ → ℝ × ℝ)
    (hL : (rL k0 k).1 = (rL' k0 k).1) (hR : (rR k0 k).1 = (rR' k0 k).1)
    (hA : (k_integrand_pressure k k0 d epsm rL rR).isSome = true)
    (hB : (k_integrand_pressure k k0 d epsm rL' rR').isSome = true) :
    (k_integrand_pressure k k0 d epsm rL rR).map Prod.snd =
      (k_integrand_pressure k k0 d epsm rL' rR').map Prod.snd := by
  simp only [k_integrand_pressure] at hA hB ⊢
  cases hsq : mathSqrt (epsm * (k0 : ℂ) ^ 2 + (k : ℂ) ^ 2) with
  | none => rw [hsq] at hA; simp at hA
  | some κ =>
      simp only [hsq, Option.some_bind] at hA hB ⊢
      cases hTEA : pyDiv
          (-2 * k * κ / 2 / Real.pi * (rL k0 k).2 * (rR k0 k).2 * Real.exp (-2 * κ * d))
          (1 - (rL k0 k).2 * (rR k0 k).2 * Real.exp (-2 * κ * d)) with
      | none => rw [hTEA] at hA; simp at hA
      | some pA =>
          cases hTEB : pyDiv
              (-2 * k * κ / 2 / Real.pi * (rL' k0 k).2 * (rR' k0 k).2 * Real.exp (-2 * κ * d))
              (1 - (rL' k0 k).2 * (rR' k0 k).2 * Real.exp (-2 * κ * d)) with
          | none => rw [hTEB] at hB; simp at hB
          | some pB =>
              simp only [hTEA, hTEB, Option.some_bind]
              rw [hL, hR]
              cases hTM : pyDiv
                  (-2 * k * κ / 2 / Real.pi * (rL' k0 k).1 * (rR' k0 k).1 * Real.exp (-2 * κ * d))
                  (1 - (rL' k0 k).1 * (rR' k0 k).1 * Real.exp (-2 * κ * d)) with
              | none => simp
              | some pTM => simp

lemma pressuregradient_TM_unaffected_by_TE (k k0 d : ℝ) (epsm : ℂ)
    (rL rL' rR rR' : ℝ → ℝ → ℝ × ℝ)
    (hL : (rL k0 k).1 = (rL' k0 k).1) (hR : (rR k0 k).1 = (rR' k0 k).1)
    (hA : (k_integrand_pressuregradient k k0 d epsm rL rR).isSome = true)
    (hB : (k_integrand_pressuregradient k k0 d epsm rL' rR').isSome = true) :
    (k_integrand_pressuregradient k k0 d epsm rL rR).map Prod.snd =
      (k_integrand_pressuregradient k k0 d epsm rL' rR').map Prod.snd := by
  simp only [k_integrand_pressuregradient] at hA hB ⊢
  cases hsq : mathSqrt (epsm * (k0 : ℂ) ^ 2 + (k : ℂ) ^ 2) with
  | none => rw [hsq] at hA; simp at hA
  | some κ =>
      simp only [hsq, Option.some_bind] at hA hB ⊢
      cases hTEA : pyDiv
          (4 * k * κ ^ 2 / 2 / Real.pi * (rL k0 k).2 * (rR k0 k).2 * Real.exp (-2 * κ * d))
          ((1 - (rL k0 k).2 * (rR k0 k).2 * Real.exp (-2 * κ * d)) ^ 2) with
      | none => rw [hTEA] at hA; simp at hA
      | some gA =>
          cases hTEB : pyDiv
              (4 * k * κ ^ 2 / 2 / Real.pi * (rL' k0 k).2 * (rR' k0 k).2 * Real.exp (-2 * κ * d))
              ((1 - (rL' k0 k).2 * (rR' k0 k).2 * Real.exp (-2 * κ * d)) ^ 2) with
          | none => rw [hTEB] at hB; simp at hB
          | some gB =>
              simp only [hTEA, hTEB, Option.some_bind]
              rw [hL, hR]
              cases hTM : pyDiv
                  (4 * k * κ ^ 2 / 2 / Real.pi * (rL' k0 k).1 * (rR' k0 k).1 * Real.exp (-2 * κ * d))
                  ((1 - (rL' k0 k).1 * (rR' k0 k).1 * Real.exp (-2 * κ * d)) ^ 2) with
              | none => simp
              | some gTM => simp

lemma energy_TE_unaffected_by_TM (k k0 d : ℝ) (epsm : ℂ)
    (rL rL' rR rR' : ℝ → ℝ → ℝ × ℝ)
    (hL : (rL k0 k).2 = (rL' k0 k).2) (hR : (rR k0 k).2 = (rR' k0 k).2)
    (hA : (k_integrand_energy k k0 d epsm rL rR).isSome = true)
    (hB : (k_integrand_energy k k0 d epsm rL' rR').isSome = true) :
    (k_integrand_energy k k0 d epsm rL rR).map Prod.fst =
      (k_integrand_energy k k0 d epsm rL' rR').map Prod.fst := by
  simp only [k_integrand_energy] at hA hB ⊢
  rw [hL, hR] at hA ⊢
  cases hsq : mathSqrt (epsm * (k0 : ℂ) ^ 2 + (k : ℂ) ^ 2) with
  | none => rw [hsq] at hA; simp at hA
  | some κ =>
      simp only [hsq, Option.some_bind] at hA hB ⊢
      cases hTE : mathLog1p (-((rL' k0 k).2 * (rR' k0 k).2 * Real.exp (-2 * κ * d))) with
      | none => rw [hTE] at hA; simp at hA
      | some lTE =>
          simp only [hTE, Option.some_bind] at hA hB ⊢
          cases hTMA : mathLog1p (-((rL k0 k).1 * (rR k0 k).1 * Real.exp (-2 * κ * d))) with
          | none => rw [hTMA] at hA; simp at hA
          | some lTMA =>
              cases hTMB : mathLog1p (-((rL' k0 k).1 * (rR' k0 k).1 * Real.exp (-2 * κ * d))) with
              | none => rw [hTMB] at hB; simp at hB
              | some lTMB => simp only [hTMA, hTMB, Option.some_bind]; simp

lemma pressure_TE_unaffected_by_TM (k k0 d : ℝ) (epsm : ℂ)
    (rL rL' rR rR' : ℝ → ℝ → ℝ × ℝ)
    (hL : (rL k0 k).2 = (rL' k0 k).2) (hR : (rR k0 k).2 = (rR' k0 k).2)
    (hA : (k_integrand_pressure k k0 d epsm rL rR).isSome = true)
    (hB : (k_integrand_pressure k k0 d epsm rL' rR').isSome = true) :
    (k_integrand_pressure k k0 d epsm rL rR).map Prod.fst =
      (k_integrand_pressure k k0 d epsm rL' rR').map Prod.fst := by
  simp only [k_integrand_pressure] at hA hB ⊢
  rw [hL, hR] at hA ⊢
  cases hsq : mathSqrt (epsm * (k0 : ℂ) ^ 2 + (k : ℂ) ^ 2) with
  | none => rw [hsq] at hA; simp at hA
  | some κ =>
      simp only [hsq, Option.some_bind] at hA hB ⊢
      cases hTE : pyDiv
          (-2 * k * κ / 2 / Real.pi * (rL' k0 k).2 * (rR' k0 k).2 * Real.exp (-2 * κ * d))
          (1 - (rL' k0 k).2 * (rR' k0 k).2 * Real.exp (-2 * κ * d)) with
      | none => rw [hTE] at hA; simp at hA
      | some pTE =>
          simp only [hTE, Option.some_bind] at hA hB ⊢
          cases hTMA : pyDiv
              (-2 * k * κ / 2 / Real.pi * (rL k0 k).1 * (rR k0 k).1 * Real.exp (-2 * κ * d))
              (1 - (rL k0 k).1 * (rR k0 k).1 * Real.exp (-2 * κ * d)) with
          | none => rw [hTMA] at hA; simp at hA
          | some pTMA =>
              cases hTMB : pyDiv
                  (-2 * k * κ / 2 / Real.pi * (rL' k0 k).1 * (rR' k0 k).1 * Real.exp (-2 * κ * d))
                  (1 - (rL' k0 k).1 * (rR' k0 k).1 * Real.exp (-2 * κ * d)) with
              | none => rw [hTMB] at hB; simp at hB
              | some pTMB => simp only [hTMA, hTMB, Option.some_bind]; simp

lemma pressuregradient_TE_unaffected_by_TM (k k0 d : ℝ) (epsm : ℂ)
    (rL rL' rR rR' : ℝ → ℝ → ℝ × ℝ)
    (hL : (rL k0 k).2 = (rL' k0 k).2) (hR : (rR k0 k).2 = (rR' k0 k).2)
    (hA : (k_integrand_pressuregradient k k0 d epsm rL rR).isSome = true)
    (hB : (k_integrand_pressuregradient k k0 d epsm rL' rR').isSome = true) :
    (k_integrand_pressuregradient k k0 d epsm rL rR).map Prod.fst =
      (k_integrand_pressuregradient k k0 d epsm rL' rR').map Prod.fst := by
  simp only [k_integrand_pressuregradient] at hA hB ⊢
  rw [hL, hR] at hA ⊢
  cases hsq : mathSqrt (epsm * (k0 : ℂ) ^ 2 + (k : ℂ) ^ 2) with
  | none => rw [hsq] at hA; simp at hA
  | some κ =>
      simp only [hsq, Option.some_bind] at hA hB ⊢
      cases hTE : pyDiv
          (4 * k * κ ^ 2 / 2 / Real.pi * (rL' k0 k).2 * (rR' k0 k).2 * Real.exp (-2 * κ * d))
          ((1 - (rL' k0 k).2 * (rR' k0 k).2 * Real.exp (-2 * κ * d)) ^ 2) with
      | none => rw [hTE] at hA; simp at hA
      | some gTE =>
          simp only [hTE, Option.some_bind] at hA hB ⊢
          cases hTMA : pyDiv
              (4 * k * κ ^ 2 / 2 / Real.pi * (rL k0 k).1 * (rR k0 k).1 * Real.exp (-2 * κ * d))
              ((1 - (rL k0 k).1 * (rR k0 k).1 * Real.exp (-2 * κ * d)) ^ 2) with
          | none => rw [hTMA] at hA; simp at hA
          | some gTMA =>
              cases hTMB : pyDiv
                  (4 * k * κ ^ 2 / 2 / Real.pi * (rL' k0 k).1 * (rR' k0 k).1 * Real.exp (-2 * κ * d))
                  ((1 - (rL' k0 k).1 * (rR' k0 k).1 * Real.exp (-2 * κ * d)) ^ 2) with
              | none => rw [hTMB] at hB; simp at hB
              | some gTMB => simp only [hTMA, hTMB, Option.some_bind]; simp

lemma msd_sum_fst_congr (T L : ℝ) (f g : ℝ → ℝ × ℝ) (e : ℝ) (nm : Option ℕ)
    (h : ∀ x, (f x).1 = (g x).1) :
    (msd_sum T L f e nm).map Prod.fst = (msd_sum T L g e nm).map Prod.fst := by
  cases nm with
  | none =>
      simp only [msd_sum, MsdOutcome.map]
      rw [h]
  | some m =>
      simp only [msd_sum, MsdOutcome.map, msd_loop_eq]
      have hs : ∑ i ∈ Finset.range m, 2 * (f (K_matsubara T * ((1 + i : ℕ) : ℝ))).1 =
          ∑ i ∈ Finset.range m, 2 * (g (K_matsubara T * ((1 + i : ℕ) : ℝ))).1 :=
        Finset.sum_congr rfl fun i _ => by rw [h]
      simp only [hs]

lemma msd_sum_snd_congr (T L : ℝ) (f g : ℝ → ℝ × ℝ) (e : ℝ) (nm : Option ℕ)
    (h : ∀ x, (f x).2 = (g x).2) :
    (msd_sum T L f e nm).map Prod.snd = (msd_sum T L g e nm).map Prod.snd := by
  cases nm with
  | none =>
      simp only [msd_sum, MsdOutcome.map]
      rw [h]
  | some m =>
      simp only [msd_sum, MsdOutcome.map, msd_loop_eq]
      have hs : ∑ i ∈ Finset.range m, 2 * (f (K_matsubara T * ((1 + i : ℕ) : ℝ))).2 =
          ∑ i ∈ Finset.range m, 2 * (g (K_matsubara T * ((1 + i : ℕ) : ℝ))).2 :=
        Finset.sum_congr rfl fun i _ => by rw [h]
      simp only [hs]

lemma psd_sum_fst_congr (psdGen : ℕ → (ℕ → ℝ) × (ℕ → ℝ)) (T L : ℝ)
    (f g : ℝ → ℝ × ℝ) (e : ℝ) (o : Option ℕ)
    (h : ∀ x, (f x).1 = (g x).1) :
    (psd_sum psdGen T L f e o).1 = (psd_sum psdGen T L g e o).1 := by
  simp only [psd_sum, psd_loop_eq, zero_add]
  congr 1
  exact Finset.sum_congr rfl fun i _ => by rw [h]

lemma psd_sum_snd_congr (psdGen : ℕ → (ℕ → ℝ) × (ℕ → ℝ)) (T L : ℝ)
    (f g : ℝ → ℝ × ℝ) (e : ℝ) (o : Option ℕ)
    (h : ∀ x, (f x).2 = (g x).2) :
    (psd_sum psdGen T L f e o).2 = (psd_sum psdGen T L g e o).2 := by
  simp only [psd_sum, psd_loop_eq, zero_add]
  congr 1
  exact Finset.sum_congr rfl fun i _ => by rw [h]

/-- C5 counterexample: for the absorptive medium `epsm = i` (nonzero imaginary
part) and `k = 1 > 0`, `k0 = 1`, `d = 1 > 0`, none of the three radial
integrands returns a result: `math.sqrt` raises `TypeError` on the complex
radicand `epsm * k0^2 + k^2 = 1 + i`, so no complex principal square root is
ever computed. -/
theorem k_integrands_complex_epsm_fail :
    k_integrand_energy 1 1 1 Complex.I rHalf rHalf = none
    ∧ k_integrand_pressure 1 1 1 Complex.I rHalf rHalf = none
    ∧ k_integrand_pressuregradient 1 1 1 Complex.I rHalf rHalf = none
    ∧ Complex.I.im ≠ 0 := by
  have hsq : mathSqrt (Complex.I * ((1 : ℝ) : ℂ) ^ 2 + ((1 : ℝ) : ℂ) ^ 2) = none := by
    rw [mathSqrt, if_neg]
    rintro ⟨h0, -⟩
    simp at h0
  refine ⟨?_, ?_, ?_, by simp⟩
  · rw [k_integrand_energy, hsq]; rfl
  · rw [k_integrand_pressure, hsq]; rfl
  · rw [k_integrand_pressuregradient, hsq]; rfl

/-- C5 amended: for a real (Python float) permittivity, stated as
`epsm.im = 0` under the float convention of `mathSqrt`, whose radicand
`epsm * k0^2 + k^2` is nonnegative, the decay constant
`kappa = sqrt(epsm * k0^2 + k^2)` is computed as the real principal square
root and all three radial integrands return a result, provided the reflection
products stay below the pole of the kernels
(`r_L * r_R * exp(-2*kappa*d) < 1`, which also keeps the `log1p` argument in
its domain); a complex-typed `epsm` instead raises `TypeError` inside
`math.sqrt`, as the counterexample exhibits. -/
theorem k_integrands_real_epsm_succeed (k k0 d : ℝ) (epsm : ℂ)
    (rL rR : ℝ → ℝ → ℝ × ℝ)
    (hepsm : epsm.im = 0)
    (hre : 0 ≤ (epsm * (k0 : ℂ) ^ 2 + (k : ℂ) ^ 2).re)
    (hTE : (rL k0 k).2 * (rR k0 k).2 *
        Real.exp (-2 * Real.sqrt ((epsm * (k0 : ℂ) ^ 2 + (k : ℂ) ^ 2).re) * d) < 1)
    (hTM : (rL k0 k).1 * (rR k0 k).1 *
        Real.exp (-2 * Real.sqrt ((epsm * (k0 : ℂ) ^ 2 + (k : ℂ) ^ 2).re) * d) < 1) :
    (k_integrand_energy k k0 d epsm rL rR).isSome = true
    ∧ (k_integrand_pressure k k0 d epsm rL rR).isSome = true
    ∧ (k_integrand_pressuregradient k k0 d epsm rL rR).isSome = true := by
  have him := radicand_im_eq_zero k0 k hepsm
  have hsq := mathSqrt_eq_some him hre
  set κ := Real.sqrt ((epsm * (k0 : ℂ) ^ 2 + (k : ℂ) ^ 2).re) with hκdef
  have hTE1 : (-1 : ℝ) < -((rL k0 k).2 * (rR k0 k).2 * Real.exp (-2 * κ * d)) := by
    linarith
  have hTM1 : (-1 : ℝ) < -((rL k0 k).1 * (rR k0 k).1 * Real.exp (-2 * κ * d)) := by
    linarith
  have hTEne : (1 : ℝ) - (rL k0 k).2 * (rR k0 k).2 * Real.exp (-2 * κ * d) ≠ 0 := by
    intro h; linarith [h]
  have hTMne : (1 : ℝ) - (rL k0 k).1 * (rR k0 k).1 * Real.exp (-2 * κ * d) ≠ 0 := by
    intro h; linarith [h]
  refine ⟨?_, ?_, ?_⟩
  · rw [k_integrand_energy, hsq]
    simp only [Option.some_bind]
    rw [mathLog1p_eq_some hTE1, mathLog1p_eq_some hTM1]
    simp
  · rw [k_integrand_pressure, hsq]
    simp only [Option.some_bind]
    rw [pyDiv_eq_some hTEne, pyDiv_eq_some hTMne]
    simp
  · rw [k_integrand_pressuregradient, hsq]
    simp only [Option.some_bind]
    rw [pyDiv_eq_some (pow_ne_zero 2 hTEne), pyDiv_eq_some (pow_ne_zero 2 hTMne)]
    simp

/-- C5 witness: the amended statement instantiated at the concrete real input
`k = 1`, `k0 = 0`, `d = 1`, `epsm = 1`, with both plates reflecting `0.5` in
both polarizations; all three integrands return a result. -/
theorem k_integrands_real_epsm_succeed_witness :
    (k_integrand_energy 1 0 1 1 rHalf rHalf).isSome = true
    ∧ (k_integrand_pressure 1 0 1 1 rHalf rHalf).isSome = true
    ∧ (k_integrand_pressuregradient 1 0 1 1 rHalf rHalf).isSome = true := by
  have hre1 : ((1 : ℂ) * ((0 : ℝ) : ℂ) ^ 2 + ((1 : ℝ) : ℂ) ^ 2).re = 1 := by simp
  have hbound : ∀ y : ℝ, y ≤ 0 → (rHalf 0 1).2 * (rHalf 0 1).2 * Real.exp y < 1 := by
    intro y hy
    have h1 : Real.exp y ≤ 1 := by
      calc Real.exp y ≤ Real.exp 0 := Real.exp_le_exp.mpr hy
        _ = 1 := Real.exp_zero
    have h0 : 0 < Real.exp y := Real.exp_pos y
    simp only [rHalf]
    nlinarith
  refine k_integrands_real_epsm_succeed 1 0 1 1 rHalf rHalf (by simp)
    (by rw [hre1]; norm_num) ?_ ?_
  · rw [hre1, Real.sqrt_one]
    exact hbound _ (by norm_num)
  · rw [hre1, Real.sqrt_one]
    exact hbound _ (by norm_num)

/-- C7 counterexample: at `k = 2 > 0`, `k0 = 3`, `d = 5 > 0` and the complex
permittivity `epsm = i`, `k_integrand_energy` returns no value at all (the
`math.sqrt` call raises), so it does not return the claimed logarithmic value
for every `epsm`. -/
theorem k_integrand_energy_complex_counterexample :
    k_integrand_energy 2 3 5 Complex.I rHalf rHalf = none := by
  rw [k_integrand_energy]
  have hsq : mathSqrt (Complex.I * ((3 : ℝ) : ℂ) ^ 2 + ((2 : ℝ) : ℂ) ^ 2) = none := by
    rw [mathSqrt, if_neg]
    rintro ⟨h0, -⟩
    simp at h0
    norm_num at h0
  rw [hsq]
  rfl

/-- C7 amended: for every `k`, `k0`, `d` and real (Python float) permittivity
(`epsm.im = 0` under the float convention of `mathSqrt`) with nonnegative
radicand and reflection products below the logarithmic singularity,
`k_integrand_energy` returns for each polarization
`k / (2*pi) * log(1 - r_L * r_R * exp(-2*kappa*d))` with
`kappa = sqrt(epsm * k0^2 + k^2)` (the `log1p(-x)` form agrees with
`log(1 - x)` in exact arithmetic); for a complex-typed `epsm` the call raises
inside `math.sqrt` instead of returning this value, as the counterexample
exhibits. -/
theorem k_integrand_energy_log_form (k k0 d : ℝ) (epsm : ℂ)
    (rL rR : ℝ → ℝ → ℝ × ℝ)
    (hepsm : epsm.im = 0)
    (hre : 0 ≤ (epsm * (k0 : ℂ) ^ 2 + (k : ℂ) ^ 2).re)
    (hTE : (rL k0 k).2 * (rR k0 k).2 *
        Real.exp (-2 * Real.sqrt ((epsm * (k0 : ℂ) ^ 2 + (k : ℂ) ^ 2).re) * d) < 1)
    (hTM : (rL k0 k).1 * (rR k0 k).1 *
        Real.exp (-2 * Real.sqrt ((epsm * (k0 : ℂ) ^ 2 + (k : ℂ) ^ 2).re) * d) < 1) :
    k_integrand_energy k k0 d epsm rL rR =
      some (k / 2 / Real.pi *
              Real.log (1 - (rL k0 k).2 * (rR k0 k).2 *
                Real.exp (-2 * Real.sqrt ((epsm * (k0 : ℂ) ^ 2 + (k : ℂ) ^ 2).re) * d)),
            k / 2 / Real.pi *
              Real.log (1 - (rL k0 k).1 * (rR k0 k).1 *
                Real.exp (-2 * Real.sqrt ((epsm * (k0 : ℂ) ^ 2 + (k : ℂ) ^ 2).re) * d))) := by
  have him := radicand_im_eq_zero k0 k hepsm
  have hsq := mathSqrt_eq_some him hre
  set κ := Real.sqrt ((epsm * (k0 : ℂ) ^ 2 + (k : ℂ) ^ 2).re) with hκdef
  have hTE1 : (-1 : ℝ) < -((rL k0 k).2 * (rR k0 k).2 * Real.exp (-2 * κ * d)) := by
    linarith
  have hTM1 : (-1 : ℝ) < -((rL k0 k).1 * (rR k0 k).1 * Real.exp (-2 * κ * d)) := by
    linarith
  rw [k_integrand_energy, hsq]
  simp only [Option.some_bind]
  rw [mathLog1p_eq_some hTE1, mathLog1p_eq_some hTM1]
  simp only [Option.some_bind]
  simp only [← sub_eq_add_neg]

/-- C7 witness: the log1p stability scenario of the spec, at `k = 1`,
`k0 = 1`, `d = 1`, `epsm = 1`, with both reflection functions constantly
returning `(0.5, 0.5)`: each returned component equals
`1 / (2*pi) * log(1 - 0.25 * exp(-2 * sqrt 2))`. -/
theorem k_integrand_energy_log_form_witness :
    k_integrand_energy 1 1 1 1 rHalf rHalf =
      some (1 / (2 * Real.pi) * Real.log (1 - 0.25 * Real.exp (-2 * Real.sqrt 2)),
            1 / (2 * Real.pi) * Real.log (1 - 0.25 * Real.exp (-2 * Real.sqrt 2))) := by
  have hre2 : ((1 : ℂ) * ((1 : ℝ) : ℂ) ^ 2 + ((1 : ℝ) : ℂ) ^ 2).re = 2 := by
    simp
    norm_num
  have hbound : (rHalf 1 1).2 * (rHalf 1 1).2 *
      Real.exp (-2 * Real.sqrt (((1 : ℂ) * ((1 : ℝ) : ℂ) ^ 2 + ((1 : ℝ) : ℂ) ^ 2).re) * 1) < 1 := by
    rw [hre2]
    have hs : 0 ≤ Real.sqrt 2 := Real.sqrt_nonneg 2
    have h1 : Real.exp (-2 * Real.sqrt 2 * 1) ≤ 1 := by
      calc Real.exp (-2 * Real.sqrt 2 * 1) ≤ Real.exp 0 :=
            Real.exp_le_exp.mpr (by nlinarith)
        _ = 1 := Real.exp_zero
    have h0 : 0 < Real.exp (-2 * Real.sqrt 2 * 1) := Real.exp_pos _
    simp only [rHalf]
    nlinarith
  have h := k_integrand_energy_log_form 1 1 1 1 rHalf rHalf (by simp)
    (by rw [hre2]; norm_num) hbound hbound
  rw [hre2] at h
  simp only [rHalf] at h
  rw [h]
  norm_num [div_div, mul_one]

/-- C8: with both reflection functions constantly returning `(0.9, 0.9)`, a
real (Python float) permittivity (`epsm.im = 0` under the float convention of
`mathSqrt`, so that the code computes `kappa` rather than raising) and inputs
making `kappa = sqrt(epsm * k0^2 + k^2)` strictly positive, for every `k > 0`
and `d > 0` both components returned by `k_integrand_pressure` are strictly
negative and both components returned by `k_integrand_pressuregradient` are
strictly positive. -/
theorem k_integrand_sign_spec (k k0 d : ℝ) (epsm : ℂ)
    (hk : 0 < k) (hd : 0 < d)
    (hepsm : epsm.im = 0)
    (hre : 0 ≤ (epsm * (k0 : ℂ) ^ 2 + (k : ℂ) ^ 2).re)
    (hκ : 0 < Real.sqrt ((epsm * (k0 : ℂ) ^ 2 + (k : ℂ) ^ 2).re)) :
    (∃ p : ℝ × ℝ, k_integrand_pressure k k0 d epsm r09 r09 = some p
        ∧ p.1 < 0 ∧ p.2 < 0)
    ∧ (∃ q : ℝ × ℝ, k_integrand_pressuregradient k k0 d epsm r09 r09 = some q
        ∧ 0 < q.1 ∧ 0 < q.2) := by
  have him := radicand_im_eq_zero k0 k hepsm
  have hsq := mathSqrt_eq_some him hre
  set κ := Real.sqrt ((epsm * (k0 : ℂ) ^ 2 + (k : ℂ) ^ 2).re) with hκdef
  have hπ : 0 < Real.pi := Real.pi_pos
  have hE0 : 0 < Real.exp (-2 * κ * d) := Real.exp_pos _
  have hE1 : Real.exp (-2 * κ * d) < 1 := by
    calc Real.exp (-2 * κ * d) < Real.exp 0 := by
          apply Real.exp_lt_exp.mpr
          nlinarith
      _ = 1 := Real.exp_zero
  have hr : (r09 k0 k).1 = 0.9 ∧ (r09 k0 k).2 = 0.9 := ⟨rfl, rfl⟩
  have hgpos : 0 < (0.9 : ℝ) * 0.9 * Real.exp (-2 * κ * d) := by nlinarith
  have hglt : (0.9 : ℝ) * 0.9 * Real.exp (-2 * κ * d) < 1 := by nlinarith
  have hden : (1 : ℝ) - 0.9 * 0.9 * Real.exp (-2 * κ * d) > 0 := by nlinarith
  have hnumP : -2 * k * κ / 2 / Real.pi * 0.9 * 0.9 * Real.exp (-2 * κ * d) < 0 := by
    have hpos : 0 < 2 * k * κ / 2 / Real.pi * 0.9 * 0.9 * Real.exp (-2 * κ * d) := by
      have h1 : 0 < 2 * k * κ / 2 / Real.pi :=
        div_pos (div_pos (by nlinarith) two_pos) hπ
      exact mul_pos (mul_pos (mul_pos h1 (by norm_num)) (by norm_num)) hE0
    have heq : -2 * k * κ / 2 / Real.pi * 0.9 * 0.9 * Real.exp (-2 * κ * d) =
        -(2 * k * κ / 2 / Real.pi * 0.9 * 0.9 * Real.exp (-2 * κ * d)) := by ring
    rw [heq]
    exact neg_neg_of_pos hpos
  have hnumG : 0 < 4 * k * κ ^ 2 / 2 / Real.pi * 0.9 * 0.9 * Real.exp (-2 * κ * d) := by
    have h1 : 0 < 4 * k * κ ^ 2 / 2 / Real.pi :=
      div_pos (div_pos (mul_pos (by linarith) (pow_pos hκ 2)) two_pos) hπ
    exact mul_pos (mul_pos (mul_pos h1 (by norm_num)) (by norm_num)) hE0
  have hP : k_integrand_pressure k k0 d epsm r09 r09 =
      some ((-2 * k * κ / 2 / Real.pi * 0.9 * 0.9 * Real.exp (-2 * κ * d)) /
              (1 - 0.9 * 0.9 * Real.exp (-2 * κ * d)),
            (-2 * k * κ / 2 / Real.pi * 0.9 * 0.9 * Real.exp (-2 * κ * d)) /
              (1 - 0.9 * 0.9 * Real.exp (-2 * κ * d))) := by
    rw [k_integrand_pressure, hsq]
    simp only [Option.some_bind]
    rw [hr.1, hr.2, pyDiv_eq_some (ne_of_gt hden)]
    simp only [Option.some_bind]
  have hG : k_integrand_pressuregradient k k0 d epsm r09 r09 =
      some ((4 * k * κ ^ 2 / 2 / Real.pi * 0.9 * 0.9 * Real.exp (-2 * κ * d)) /
              (1 - 0.9 * 0.9 * Real.exp (-2 * κ * d)) ^ 2,
            (4 * k * κ ^ 2 / 2 / Real.pi * 0.9 * 0.9 * Real.exp (-2 * κ * d)) /
              (1 - 0.9 * 0.9 * Real.exp (-2 * κ * d)) ^ 2) := by
    rw [k_integrand_pressuregradient, hsq]
    simp only [Option.some_bind]
    rw [hr.1, hr.2, pyDiv_eq_some (pow_ne_zero 2 (ne_of_gt hden))]
    simp only [Option.some_bind]
  exact ⟨⟨_, hP, div_neg_of_neg_of_pos hnumP hden, div_neg_of_neg_of_pos hnumP hden⟩,
    ⟨_, hG, div_pos hnumG (pow_pos hden 2), div_pos hnumG (pow_pos hden 2)⟩⟩

/-- C8 witness: the sign statement instantiated at the concrete input
`k = 1`, `k0 = 0`, `d = 1`, `epsm = 1`, where `kappa = 1 > 0`. -/
theorem k_integrand_sign_spec_witness :
    (∃ p : ℝ × ℝ, k_integrand_pressure 1 0 1 1 r09 r09 = some p
        ∧ p.1 < 0 ∧ p.2 < 0)
    ∧ (∃ q : ℝ × ℝ, k_integrand_pressuregradient 1 0 1 1 r09 r09 = some q
        ∧ 0 < q.1 ∧ 0 < q.2) := by
  have hre1 : ((1 : ℂ) * ((0 : ℝ) : ℂ) ^ 2 + ((1 : ℝ) : ℂ) ^ 2).re = 1 := by simp
  exact k_integrand_sign_spec 1 0 1 1 (by norm_num) (by norm_num) (by simp)
    (by rw [hre1]; norm_num) (by rw [hre1, Real.sqrt_one]; norm_num)

/-- C6: for every `T`, `L`, vector-valued `func`, `epsrel` and explicitly
supplied `nmax = m`, `msd_sum` evaluates `func` at `K_matsubara * n` for
exactly the indices `n = 1 .. m` with no convergence check (its result does
not depend on `epsrel`) and returns
`0.5 * kB * T * (sum over n = 1 .. m of 2 * func(K_matsubara * n))`,
componentwise. -/
theorem msd_sum_fixed_nmax_spec (T L : ℝ) (func : ℝ → ℝ × ℝ)
    (epsrel epsrel' : ℝ) (m : ℕ) :
    msd_sum T L func epsrel (some m) =
      .ok (0.5 * kB * T *
            ∑ i ∈ Finset.range m, 2 * (func (K_matsubara T * ((i + 1 : ℕ) : ℝ))).1,
          0.5 * kB * T *
            ∑ i ∈ Finset.range m, 2 * (func (K_matsubara T * ((i + 1 : ℕ) : ℝ))).2)
    ∧ msd_sum T L func epsrel (some m) = msd_sum T L func epsrel' (some m)
    ∧ msd_calls T (some m) =
        (List.range m).map (fun i => K_matsubara T * ((i + 1 : ℕ) : ℝ))
    ∧ (msd_calls T (some m)).length = m := by
  have hsum1 : ∑ i ∈ Finset.range m,
        2 * (func (K_matsubara T * ((1 + i : ℕ) : ℝ))).1 =
      ∑ i ∈ Finset.range m, 2 * (func (K_matsubara T * ((i + 1 : ℕ) : ℝ))).1 :=
    Finset.sum_congr rfl fun i _ => by rw [Nat.add_comm]
  have hsum2 : ∑ i ∈ Finset.range m,
        2 * (func (K_matsubara T * ((1 + i : ℕ) : ℝ))).2 =
      ∑ i ∈ Finset.range m, 2 * (func (K_matsubara T * ((i + 1 : ℕ) : ℝ))).2 :=
    Finset.sum_congr rfl fun i _ => by rw [Nat.add_comm]
  have hcalls : msd_calls T (some m) =
      (List.range m).map (fun i => K_matsubara T * ((i + 1 : ℕ) : ℝ)) := by
    rw [msd_calls, msd_calls_loop_eq]
    exact List.map_congr_left fun i _ => by rw [Nat.add_comm]
  refine ⟨?_, rfl, hcalls, ?_⟩
  · simp only [msd_sum, msd_loop_eq, zero_add, hsum1, hsum2]
  · rw [hcalls]; simp

/-- C3: for every node generator, `T`, `L`, vector-valued `func`, `epsrel` and
explicitly supplied `order = m`, `psd_sum` evaluates `func` exactly `m` times
and returns `0.5 * kB * T * (sum over i = 0 .. m-1 of
2 * eta_i * func(K_matsubara * xi_i / (2*pi)))` componentwise, where
`(xi, eta)` is the node set of length `m` obtained from the generator; the
result does not depend on `epsrel`. -/
theorem psd_sum_fixed_order_spec (psdGen : ℕ → (ℕ → ℝ) × (ℕ → ℝ))
    (T L : ℝ) (func : ℝ → ℝ × ℝ) (epsrel epsrel' : ℝ) (m : ℕ) :
    psd_sum psdGen T L func epsrel (some m) =
      (0.5 * kB * T * ∑ i ∈ Finset.range m,
          2 * (psdGen m).2 i *
            (func (K_matsubara T * (psdGen m).1 i / 2 / Real.pi)).1,
       0.5 * kB * T * ∑ i ∈ Finset.range m,
          2 * (psdGen m).2 i *
            (func (K_matsubara T * (psdGen m).1 i / 2 / Real.pi)).2)
    ∧ psd_sum psdGen T L func epsrel (some m) =
        psd_sum psdGen T L func epsrel' (some m)
    ∧ (psd_calls psdGen T L epsrel (some m)).length = m := by
  refine ⟨?_, rfl, ?_⟩
  · simp only [psd_sum, psd_loop_eq, zero_add, Nat.zero_add]
  · rw [psd_calls]
    exact psd_calls_loop_length _ _ _ _

/-- C4: when `order` is unsupplied, `psd_sum` derives the order as
`max(ceil((1 - 1.5 * log10(abs(epsrel))) / sqrt(Teff)), 5)` with
`Teff = 4 * pi * kB * T * L / (hbar * c)` and then behaves exactly like a call
with that order supplied; for every `T > 0`, `L > 0` and nonzero `epsrel` the
computed order is never less than `5`. -/
theorem psd_sum_order_heuristic (psdGen : ℕ → (ℕ → ℝ) × (ℕ → ℝ))
    (T L epsrel : ℝ) (func : ℝ → ℝ × ℝ)
    (hT : 0 < T) (hL : 0 < L) (heps : epsrel ≠ 0) :
    psd_sum psdGen T L func epsrel none =
      psd_sum psdGen T L func epsrel (some (psd_order T L epsrel).toNat)
    ∧ psd_order T L epsrel =
        max ⌈(1 - 1.5 * Real.logb 10 |epsrel|) /
              Real.sqrt (4 * Real.pi * kB / hbar / c_light * T * L)⌉ 5
    ∧ 5 ≤ psd_order T L epsrel
    ∧ 5 ≤ (psd_order T L epsrel).toNat := by
  have h5 : (5 : ℤ) ≤ psd_order T L epsrel := le_max_right _ _
  exact ⟨rfl, rfl, h5, by omega⟩

/-- C4 witness: the order heuristic theorem instantiated at the concrete
physical input `T = 1`, `L = 1`, `epsrel = 1/100`. -/
theorem psd_sum_order_heuristic_witness :
    psd_sum (fun _ => (fun _ => 0, fun _ => 0)) 1 1 (fun _ => (0, 0)) (1/100) none =
      psd_sum (fun _ => (fun _ => 0, fun _ => 0)) 1 1 (fun _ => (0, 0)) (1/100)
        (some (psd_order 1 1 (1/100)).toNat)
    ∧ 5 ≤ psd_order 1 1 (1/100) :=
  ⟨(psd_sum_order_heuristic (fun _ => (fun _ => 0, fun _ => 0)) 1 1 (1/100)
      (fun _ => (0, 0)) (by norm_num) (by norm_num) (by norm_num)).1,
   (psd_sum_order_heuristic (fun _ => (fun _ => 0, fun _ => 0)) 1 1 (1/100)
      (fun _ => (0, 0)) (by norm_num) (by norm_num) (by norm_num)).2.2.1⟩

/-- C1, evaluated at a failing input: with `nmax` unsupplied and the
vector-valued `func = fun _ => (1, 1)`, `T = 300`, `L = 1e-6`,
`epsrel = 1/2`, the call does not stop and return at the first index whose
ratio is below `epsrel` (the would-be ratio `abs(1 / (2 + 2))` is already below
`epsrel` at `n = 1`): the stopping test raises the `numpy` ambiguous truth
value `ValueError` on the first iteration instead. -/
theorem msd_adaptive_first_test_raises :
    msd_sum 300 1e-6 (fun _ => (1, 1)) (1/2) none = .valueError 1 (2, 2)
    ∧ |(1 : ℝ) / (2 + 2)| < 1/2 := by
  constructor
  · simp only [msd_sum]
    norm_num
  · norm_num [abs_of_pos]

/-- C2, evaluated at a failing input: with `nmax` unsupplied and the
geometrically decaying `func` given by `funcGeo` with ratio `r = 1/2`
(`func(K_matsubara * n) = ((1/2)^n, (1/2)^n)`), the call does not terminate
with the closed-form geometric value
`0.5 * kB * T * 2 * r / (1 - r) = 300 * kB` per component: it raises on the
first iteration of the stopping loop. -/
theorem msd_adaptive_geometric_raises :
    msd_sum 300 1e-6 (funcGeo 300 (1/2)) (1/1000) none = .valueError 1 (1, 1)
    ∧ msd_sum 300 1e-6 (funcGeo 300 (1/2)) (1/1000) none ≠
        .ok (300 * kB, 300 * kB) := by
  have hK : K_matsubara 300 ≠ 0 := K_matsubara_ne_zero (by norm_num)
  have hfunc : funcGeo 300 (1/2) (K_matsubara 300 * 1) = (1/2, 1/2) := by
    simp [funcGeo, mul_one, div_self hK, Real.rpow_one]
  have h : msd_sum 300 1e-6 (funcGeo 300 (1/2)) (1/1000) none =
      .valueError 1 (1, 1) := by
    simp only [msd_sum, hfunc]
    norm_num
  refine ⟨h, ?_⟩
  rw [h]
  simp

/-- C10: with `nmax` unsupplied, `func` is evaluated exactly once, at
`K_matsubara * 1`, and that term is accumulated into `res` (exactly as one
iteration of the accumulation loop would) before the stopping test runs; but
no sum is ever returned, because the stopping test raises. -/
theorem msd_adaptive_accumulates_before_raise (T L : ℝ) (func : ℝ → ℝ × ℝ)
    (epsrel : ℝ) :
    msd_sum T L func epsrel none =
      .valueError 1 (msd_loop (K_matsubara T) func 1 1 (0, 0))
    ∧ msd_calls T none = [K_matsubara T * 1]
    ∧ ∀ p : ℝ × ℝ, msd_sum T L func epsrel none ≠ .ok p := by
  refine ⟨?_, rfl, ?_⟩
  · simp only [msd_sum, msd_loop]
    norm_num
  · intro p
    simp only [msd_sum]
    exact fun hcontra => MsdOutcome.noConfusion hcontra

/-- C9 counterexample: the reflection functions `rA2 = (0.5, 2)` and
`rB0 = (0.5, 0)` agree in the rTM amplitude and differ only in the rTE
amplitude, yet at the input `k = 1`, `k0 = 0`, `d = 0`, `epsm = 1` the two
calls of `k_integrand_energy` do not produce identical TM components: the
first call raises inside `log1p` while computing the TE component (so no TM
component is produced at all), the second returns a TM value. -/
theorem te_variation_changes_tm_output :
    (rA2 0 1).1 = (rB0 0 1).1
    ∧ (k_integrand_energy 1 0 0 1 rA2 rA2).map Prod.snd ≠
        (k_integrand_energy 1 0 0 1 rB0 rB0).map Prod.snd := by
  have hexp : Real.exp (-2 * 1 * 0 : ℝ) = 1 := by
    rw [show (-2 * 1 * 0 : ℝ) = 0 by ring, Real.exp_zero]
  have hTEA : mathLog1p (-((rA2 0 1).2 * (rA2 0 1).2 * Real.exp (-2 * 1 * 0))) = none := by
    rw [mathLog1p, if_neg]
    simp only [rA2]
    rw [hexp]
    norm_num
  have hA : k_integrand_energy 1 0 0 1 rA2 rA2 = none := by
    rw [k_integrand_energy, mathSqrt_radicand_01]
    simp only [Option.some_bind]
    rw [hTEA]
    rfl
  have hTEB : mathLog1p (-((rB0 0 1).2 * (rB0 0 1).2 * Real.exp (-2 * 1 * 0))) =
      some (Real.log (1 + -((rB0 0 1).2 * (rB0 0 1).2 * Real.exp (-2 * 1 * 0)))) :=
    mathLog1p_eq_some (by norm_num [rB0])
  have hTMB : mathLog1p (-((rB0 0 1).1 * (rB0 0 1).1 * Real.exp (-2 * 1 * 0))) =
      some (Real.log (1 + -((rB0 0 1).1 * (rB0 0 1).1 * Real.exp (-2 * 1 * 0)))) :=
    mathLog1p_eq_some (by norm_num [rB0, hexp])
  have hB : k_integrand_energy 1 0 0 1 rB0 rB0 =
      some (1 / 2 / Real.pi * Real.log (1 + -((rB0 0 1).2 * (rB0 0 1).2 * Real.exp (-2 * 1 * 0))),
            1 / 2 / Real.pi * Real.log (1 + -((rB0 0 1).1 * (rB0 0 1).1 * Real.exp (-2 * 1 * 0)))) := by
    rw [k_integrand_energy, mathSqrt_radicand_01]
    simp only [Option.some_bind]
    rw [hTEB, hTMB]
    rfl
  refine ⟨rfl, ?_⟩
  rw [hA, hB]
  simp

/-- C9 amended: whenever two calls of the same radial integrand succeed and
their reflection functions agree in the rTM amplitudes at the evaluated point,
the TM output components are identical (and symmetrically for TE); varying the
rTE amplitude alone can however change whether the call returns at all,
because the TE computation runs first and its domain error aborts the whole
call.  The summation engines accumulate the two vector components without
mixing them: each output component depends only on the corresponding
component of `func`. -/
theorem component_independence :
    (∀ (k k0 d : ℝ) (epsm : ℂ) (rL rL' rR rR' : ℝ → ℝ → ℝ × ℝ),
        (rL k0 k).1 = (rL' k0 k).1 → (rR k0 k).1 = (rR' k0 k).1 →
        (k_integrand_energy k k0 d epsm rL rR).isSome = true →
        (k_integrand_energy k k0 d epsm rL' rR').isSome = true →
        (k_integrand_energy k k0 d epsm rL rR).map Prod.snd =
          (k_integrand_energy k k0 d epsm rL' rR').map Prod.snd)
    ∧ (∀ (k k0 d : ℝ) (epsm : ℂ) (rL rL' rR rR' : ℝ → ℝ → ℝ × ℝ),
        (rL k0 k).1 = (rL' k0 k).1 → (rR k0 k).1 = (rR' k0 k).1 →
        (k_integrand_pressure k k0 d epsm rL rR).isSome = true →
        (k_integrand_pressure k k0 d epsm rL' rR').isSome = true →
        (k_integrand_pressure k k0 d epsm rL rR).map Prod.snd =
          (k_integrand_pressure k k0 d epsm rL' rR').map Prod.snd)
    ∧ (∀ (k k0 d : ℝ) (epsm : ℂ) (rL rL' rR rR' : ℝ → ℝ → ℝ × ℝ),
        (rL k0 k).1 = (rL' k0 k).1 → (rR k0 k).1 = (rR' k0 k).1 →
        (k_integrand_pressuregradient k k0 d epsm rL rR).isSome = true →
        (k_integrand_pressuregradient k k0 d epsm rL' rR').isSome = true →
        (k_integrand_pressuregradient k k0 d epsm rL rR).map Prod.snd =
          (k_integrand_pressuregradient k k0 d epsm rL' rR').map Prod.snd)
    ∧ (∀ (k k0 d : ℝ) (epsm : ℂ) (rL rL' rR rR' : ℝ → ℝ → ℝ × ℝ),
        (rL k0 k).2 = (rL' k0 k).2 → (rR k0 k).2 = (rR' k0 k).2 →
        (k_integrand_energy k k0 d epsm rL rR).isSome = true →
        (k_integrand_energy k k0 d epsm rL' rR').isSome = true →
        (k_integrand_energy k k0 d epsm rL rR).map Prod.fst =
          (k_integrand_energy k k0 d epsm rL' rR').map Prod.fst)
    ∧ (∀ (k k0 d : ℝ) (epsm : ℂ) (rL rL' rR rR' : ℝ → ℝ → ℝ × ℝ),
        (rL k0 k).2 = (rL' k0 k).2 → (rR k0 k).2 = (rR' k0 k).2 →
        (k_integrand_pressure k k0 d epsm rL rR).isSome = true →
        (k_integrand_pressure k k0 d epsm rL' rR').isSome = true →
        (k_integrand_pressure k k0 d epsm rL rR).map Prod.fst =
          (k_integrand_pressure k k0 d epsm rL' rR').map Prod.fst)
    ∧ (∀ (k k0 d : ℝ) (epsm : ℂ) (rL rL' rR rR' : ℝ → ℝ → ℝ × ℝ),
        (rL k0 k).2 = (rL' k0 k).2 → (rR k0 k).2 = (rR' k0 k).2 →
        (k_integrand_pressuregradient k k0 d epsm rL rR).isSome = true →
        (k_integrand_pressuregradient k k0 d epsm rL' rR').isSome = true →
        (k_integrand_pressuregradient k k0 d epsm rL rR).map Prod.fst =
          (k_integrand_pressuregradient k k0 d epsm rL' rR').map Prod.fst)
    ∧ (∀ (T L : ℝ) (f g : ℝ → ℝ × ℝ) (e : ℝ) (nm : Option ℕ),
        (∀ x, (f x).1 = (g x).1) →
        (msd_sum T L f e nm).map Prod.fst = (msd_sum T L g e nm).map Prod.fst)
    ∧ (∀ (T L : ℝ) (f g : ℝ → ℝ × ℝ) (e : ℝ) (nm : Option ℕ),
        (∀ x, (f x).2 = (g x).2) →
        (msd_sum T L f e nm).map Prod.snd = (msd_sum T L g e nm).map Prod.snd)
    ∧ (∀ (psdGen : ℕ → (ℕ → ℝ) × (ℕ → ℝ)) (T L : ℝ) (f g : ℝ → ℝ × ℝ)
          (e : ℝ) (o : Option ℕ),
        (∀ x, (f x).1 = (g x).1) →
        (psd_sum psdGen T L f e o).1 = (psd_sum psdGen T L g e o).1)
    ∧ (∀ (psdGen : ℕ → (ℕ → ℝ) × (ℕ → ℝ)) (T L : ℝ) (f g : ℝ → ℝ × ℝ)
          (e : ℝ) (o : Option ℕ),
        (∀ x, (f x).2 = (g x).2) →
        (psd_sum psdGen T L f e o).2 = (psd_sum psdGen T L g e o).2) :=
  ⟨energy_TM_unaffected_by_TE, pressure_TM_unaffected_by_TE,
   pressuregradient_TM_unaffected_by_TE, energy_TE_unaffected_by_TM,
   pressure_TE_unaffected_by_TM, pressuregradient_TE_unaffected_by_TM,
   msd_sum_fst_congr, msd_sum_snd_congr, psd_sum_fst_congr, psd_sum_snd_congr⟩

/-- C9 witness: two successful energy-integrand calls whose reflection
functions agree in rTM and differ only in rTE have identical TM components,
and two `msd_sum` calls whose summands agree in the TE component have
identical TE results. -/
theorem component_independence_witness :
    (k_integrand_energy 1 0 0 1 rB0 rB0).map Prod.snd =
      (k_integrand_energy 1 0 0 1 rHalf rHalf).map Prod.snd
    ∧ (msd_sum 1 1 (fun _ => (1, 2)) 1 (some 3)).map Prod.fst =
        (msd_sum 1 1 (fun _ => (1, 5)) 1 (some 3)).map Prod.fst := by
  have hexp : Real.exp (-2 * 1 * 0 : ℝ) = 1 := by
    rw [show (-2 * 1 * 0 : ℝ) = 0 by ring, Real.exp_zero]
  have hsomeB : (k_integrand_energy 1 0 0 1 rB0 rB0).isSome = true := by
    rw [k_integrand_energy, mathSqrt_radicand_01]
    simp only [Option.some_bind]
    rw [mathLog1p_eq_some
        (show (-1 : ℝ) < -((rB0 0 1).2 * (rB0 0 1).2 * Real.exp (-2 * 1 * 0)) by
          norm_num [rB0]),
      mathLog1p_eq_some
        (show (-1 : ℝ) < -((rB0 0 1).1 * (rB0 0 1).1 * Real.exp (-2 * 1 * 0)) by
          norm_num [rB0, hexp])]
    rfl
  have hsomeH : (k_integrand_energy 1 0 0 1 rHalf rHalf).isSome = true := by
    rw [k_integrand_energy, mathSqrt_radicand_01]
    simp only [Option.some_bind]
    rw [mathLog1p_eq_some
        (show (-1 : ℝ) < -((rHalf 0 1).2 * (rHalf 0 1).2 * Real.exp (-2 * 1 * 0)) by
          norm_num [rHalf, hexp]),
      mathLog1p_eq_some
        (show (-1 : ℝ) < -((rHalf 0 1).1 * (rHalf 0 1).1 * Real.exp (-2 * 1 * 0)) by
          norm_num [rHalf, hexp])]
    rfl
  exact ⟨component_independence.1 1 0 0 1 rB0 rHalf rB0 rHalf rfl rfl hsomeB hsomeH,
    component_independence.2.2.2.2.2.2.1 1 1 (fun _ => (1, 2)) (fun _ => (1, 5)) 1
      (some 3) (fun _ => rfl)⟩

end CaLiForce
